import Mathlib

/-!
Shallow embedding of the inventory-path helpers in `vsphere/folder_helper.go`
and of the guest-customization event waiter in `vsphere/event_helper.go` of
the terraform-provider-vsphere repository.

Go strings are modelled as lists of characters.  The standard-library string
and path functions the code calls (`strings.SplitN` with limit 2,
`strings.TrimPrefix(s, "/")`, `path.Clean`, `path.Dir`) are modelled below
following their documented behaviour for the arguments the repository uses
(in particular every separator passed to `strings.SplitN` here is the
non-empty delimiter string of a path particle).
-/

/-- A Go string, modelled as a list of characters. -/
abbrev GoStr := List Char

/-- `vSphereFolderType` is an enumeration type for vSphere folder types
(a Go string type). -/
abbrev vSphereFolderType := GoStr

def vSphereFolderTypeVM : vSphereFolderType := "vm".toList

def vSphereFolderTypeNetwork : vSphereFolderType := "network".toList

def vSphereFolderTypeHost : vSphereFolderType := "host".toList

def vSphereFolderTypeDatastore : vSphereFolderType := "datastore".toList

def vSphereFolderTypeDatacenter : vSphereFolderType := "datacenter".toList

/-- `rootPathParticle` is the section of a vSphere inventory path that denotes
a specific kind of inventory item. -/
abbrev rootPathParticle := vSphereFolderType

def rootPathParticleVM : rootPathParticle := vSphereFolderTypeVM

def rootPathParticleNetwork : rootPathParticle := vSphereFolderTypeNetwork

def rootPathParticleHost : rootPathParticle := vSphereFolderTypeHost

def rootPathParticleDatastore : rootPathParticle := vSphereFolderTypeDatastore

/-- The four folder-type particles defined as constants in the source
(the `datacenter` folder type deliberately gets no root path particle). -/
def folderParticles : List rootPathParticle :=
  [rootPathParticleVM, rootPathParticleNetwork, rootPathParticleHost,
    rootPathParticleDatastore]

/-- `Delimiter` returns the path delimiter for the particle, which is just
the particle with a leading slash (`"/" + p`). -/
def Delimiter (p : rootPathParticle) : GoStr := '/' :: p

/-- Splits `s` around the first occurrence of `sep`: the behaviour of Go
`strings.SplitN(s, sep, 2)` for a non-empty `sep` (every separator used by
the repository is a particle delimiter, which always starts with a slash).
Returns `some (before, after)` when `sep` occurs in `s`, `none` otherwise. -/
def splitFirst (sep : GoStr) : GoStr → Option (GoStr × GoStr)
  | [] => if sep = [] then some ([], []) else none
  | c :: cs =>
    if sep <+: (c :: cs) then some ([], (c :: cs).drop sep.length)
    else (splitFirst sep cs).map (fun q => (c :: q.1, q.2))

/-- Go `strings.SplitN(s, sep, 2)` (for the non-empty separators used
here): two parts exactly when `sep` occurs at least once in `s`, otherwise
the single-element list `[s]`. -/
def splitN2 (s sep : GoStr) : List GoStr :=
  match splitFirst sep s with
  | some q => [q.1, q.2]
  | none => [s]

/-- The error produced by the split helpers:
`fmt.Errorf("could not split path %q on %q", inventoryPath, delimiter)`. -/
inductive PathError where
  | couldNotSplit (path delim : GoStr)
deriving DecidableEq

/-- `SplitDatacenter` splits out the datacenter path from the supplied path
for the particle.  Mirrors the Go pair return `(string, error)` as a pair of
the string result and an optional error. -/
def SplitDatacenter (p : rootPathParticle) (inventoryPath : GoStr) :
    GoStr × Option PathError :=
  match splitN2 inventoryPath (Delimiter p) with
  | [a, _] => (a, none)
  | _ => (inventoryPath, some (PathError.couldNotSplit inventoryPath (Delimiter p)))

/-- `SplitRelative` splits out the relative path from the supplied path for
the particle. -/
def SplitRelative (p : rootPathParticle) (inventoryPath : GoStr) :
    GoStr × Option PathError :=
  match splitN2 inventoryPath (Delimiter p) with
  | [_, b] => (b, none)
  | _ => (inventoryPath, some (PathError.couldNotSplit inventoryPath (Delimiter p)))

/-- `RootFromDatacenter` returns the root path for the particle from the
given datacenter's inventory path (`dc.InventoryPath + "/" + string(p)`). -/
def RootFromDatacenter (p : rootPathParticle) (dcInventoryPath : GoStr) : GoStr :=
  dcInventoryPath ++ '/' :: p

/-- `PathFromDatacenter` returns the combined result of `RootFromDatacenter`
plus a relative path for a given particle and datacenter path. -/
def PathFromDatacenter (p : rootPathParticle) (dcInventoryPath relative : GoStr) :
    GoStr :=
  RootFromDatacenter p dcInventoryPath ++ '/' :: relative

/-- The `".."` path element. -/
def ddSeg : GoStr := ['.', '.']

/-- One step of the element-stack form of Go `path.Clean`: empty and `"."`
elements are dropped, `".."` pops the previous element (on a rooted path a
leading `".."` is dropped, on an unrooted path leading `".."` elements are
kept), anything else is pushed.  The stack holds the most recent element
first. -/
def cleanPush (rooted : Bool) (stack : List GoStr) (e : GoStr) : List GoStr :=
  if e = [] ∨ e = ['.'] then stack
  else if e = ddSeg then
    if rooted then stack.tail
    else
      match stack with
      | [] => [ddSeg]
      | top :: rest => if top = ddSeg then ddSeg :: top :: rest else rest
  else e :: stack

/-- Processes the slash-separated elements of a path through `cleanPush`. -/
def cleanStack (rooted : Bool) (elems : List GoStr) : List GoStr :=
  elems.foldl (cleanPush rooted) []

/-- Reassembles the cleaned element list (given in path order): a rooted
result regains its leading slash, an empty unrooted result is `"."`. -/
def renderClean (rooted : Bool) (elems : List GoStr) : GoStr :=
  if rooted then '/' :: List.intercalate ['/'] elems
  else if elems = [] then ['.']
  else List.intercalate ['/'] elems

/-- Model of Go `path.Clean`, by its documented rules: collapse multiple
slashes, drop `.` elements, resolve `..` elements lexically (a `..` at the
start of a rooted path is dropped, a leading run of `..` in an unrooted path
is kept), drop trailing slashes; the empty result becomes `"."` (or `"/"`
for a rooted path). -/
def pathClean (s : GoStr) : GoStr :=
  renderClean (s.head? == some '/')
    ((cleanStack (s.head? == some '/') (s.splitOn '/')).reverse)

/-- Model of Go `path.Dir`: everything up to and including the final slash
(the empty string when there is no slash), cleaned with `path.Clean`. -/
def pathDir (s : GoStr) : GoStr :=
  pathClean ((s.reverse.dropWhile (fun c => c ≠ '/')).reverse)

/-- `SplitRelativeFolder` returns the parent folder for the result of
`SplitRelative` on the supplied path. -/
def SplitRelativeFolder (p : rootPathParticle) (inventoryPath : GoStr) :
    GoStr × Option PathError :=
  match SplitRelative p inventoryPath with
  | (relative, none) => (pathDir relative, none)
  | (_, some e) => (inventoryPath, some e)

/-- `NewRootFromPath` takes the datacenter path for a specific entity and
appends the new particle supplied (`fmt.Sprintf("%s/%s", dcPath, newParticle)`). -/
def NewRootFromPath (p : rootPathParticle) (inventoryPath : GoStr)
    (newParticle : rootPathParticle) : GoStr × Option PathError :=
  match SplitDatacenter p inventoryPath with
  | (dcPath, none) => (dcPath ++ '/' :: newParticle, none)
  | (_, some e) => (inventoryPath, some e)

/-- `PathFromNewRoot` takes the datacenter path for a specific entity and
appends the new particle supplied with the new relative path, cleaned with
`path.Clean`. -/
def PathFromNewRoot (p : rootPathParticle) (inventoryPath : GoStr)
    (newParticle : rootPathParticle) (relative : GoStr) : GoStr × Option PathError :=
  match NewRootFromPath p inventoryPath newParticle with
  | (rootPath, none) => (pathClean (rootPath ++ '/' :: relative), none)
  | (_, some e) => (inventoryPath, some e)

/-- `pathIsEmpty` checks a folder path to see if it is "empty" (would
resolve to the root inventory path for a given type in a datacenter:
`""` or `"/"`). -/
def pathIsEmpty (path : GoStr) : Bool :=
  path == [] || path == ['/']

/-- Go `strings.TrimPrefix(s, "/")`: removes a single leading slash when
present. -/
def trimLeadingSlash : GoStr → GoStr
  | [] => []
  | c :: cs => if c = '/' then cs else c :: cs

/-- `normalizeFolderPath` is a SchemaStateFunc that normalizes a folder
path: empty paths map to `""`, anything else is lexically cleaned and the
leading slash stripped. -/
def normalizeFolderPath (p : GoStr) : GoStr :=
  if pathIsEmpty p then [] else trimLeadingSlash (pathClean p)

/-! ### Lemmas about splitFirst -/

theorem splitFirst_eq_none_iff (sep : GoStr) (s : GoStr) :
    splitFirst sep s = none ↔ ¬ sep <:+: s := by
  induction s with
  | nil =>
    by_cases h : sep = []
    · subst h
      simp only [splitFirst, if_pos rfl]
      constructor
      · intro h'
        cases h'
      · intro h'
        exact absurd ⟨[], [], rfl⟩ h'
    · simp only [splitFirst, if_neg h]
      constructor
      · rintro - ⟨u, v, huv⟩
        rcases List.append_eq_nil.mp huv with ⟨h1, h2⟩
        rcases List.append_eq_nil.mp h1 with ⟨-, h3⟩
        exact h h3
      · intro _
        trivial
  | cons c cs ih =>
    by_cases hp : sep <+: c :: cs
    · simp only [splitFirst, if_pos hp]
      constructor
      · intro h'
        cases h'
      · intro h'
        exact absurd hp.isInfix h'
    · have hiff : sep <:+: c :: cs ↔ sep <:+: cs := by
        rw [ List.infix_cons_iff]
        exact or_iff_right hp
      simp only [splitFirst, if_neg hp, Option.map_eq_none']
      rw [ih, hiff]

theorem splitFirst_boundary (p D rest : GoStr) (hslash : '/' ∉ p)
    (hD : ¬ ('/' :: p) <:+: D) :
    splitFirst ('/' :: p) (D ++ ('/' :: p) ++ rest) = some (D, rest) := by
  induction D with
  | nil =>
    have hpre : ('/' :: p) <+: ('/' :: p) ++ rest := ⟨rest, rfl⟩
    have : (('/' :: p) ++ rest) = '/' :: (p ++ rest) := rfl
    rw [List.nil_append, this, splitFirst, ← this, if_pos hpre, List.drop_left]
  | cons c D' ih =>
    have hD2 : ¬ ('/' :: p) <:+: D' := by
      rintro ⟨u, v, huv⟩
      exact hD ⟨c :: u, v, by rw [List.cons_append, List.cons_append, huv]⟩
    have hshape : (c :: D') ++ ('/' :: p) ++ rest
        = c :: (D' ++ ('/' :: p) ++ rest) := by simp
    have hp : ¬ ('/' :: p) <+: c :: (D' ++ ('/' :: p) ++ rest) := by
      rintro ⟨t, ht⟩
      rw [List.cons_append] at ht
      have hc : c = '/' := (List.cons.injEq _ _ _ _ ▸ ht).1.symm
      have hrest : p ++ t = D' ++ ('/' :: (p ++ rest)) := by
        have := (List.cons.injEq _ _ _ _ ▸ ht).2
        simpa using this
      rcases List.append_eq_append_iff.mp hrest with ⟨a2, ha2, -⟩ | ⟨c2, hc2, hd2⟩
      · -- D' = p ++ a2 : the delimiter occurs at the front of c :: D'
        exact hD ⟨[], a2, by simp [hc, ha2]⟩
      · -- p = D' ++ c2
        cases c2 with
        | nil =>
          have : p = D' := by simpa using hc2
          exact hD ⟨[], [], by simp [hc, this]⟩
        | cons x c2' =>
          have hx : x = '/' := by
            have := (List.cons.injEq _ _ _ _ ▸ hd2).1
            exact this.symm
          exact hslash (by rw [hc2, hx]; exact List.mem_append_right _ (by simp))
    rw [hshape, splitFirst, if_neg hp, ih hD2]
    rfl

theorem SplitDatacenter_of_found (p : rootPathParticle) (s a b : GoStr)
    (h : splitFirst (Delimiter p) s = some (a, b)) :
    SplitDatacenter p s = (a, none) := by
  simp [SplitDatacenter, splitN2, h]

theorem SplitRelative_of_found (p : rootPathParticle) (s a b : GoStr)
    (h : splitFirst (Delimiter p) s = some (a, b)) :
    SplitRelative p s = (b, none) := by
  simp [SplitRelative, splitN2, h]

theorem SplitDatacenter_of_none (p : rootPathParticle) (s : GoStr)
    (h : splitFirst (Delimiter p) s = none) :
    SplitDatacenter p s
      = (s, some (PathError.couldNotSplit s (Delimiter p))) := by
  simp [SplitDatacenter, splitN2, h]

theorem SplitRelative_of_none (p : rootPathParticle) (s : GoStr)
    (h : splitFirst (Delimiter p) s = none) :
    SplitRelative p s
      = (s, some (PathError.couldNotSplit s (Delimiter p))) := by
  simp [SplitRelative, splitN2, h]

/-- Membership in the constant list of folder-type particles implies the
particle contains no slash. -/
theorem folderParticle_no_slash (p : rootPathParticle)
    (hp : p ∈ folderParticles) : '/' ∉ p := by
  simp only [folderParticles, List.mem_cons, List.not_mem_nil, or_false] at hp
  rcases hp with rfl | rfl | rfl | rfl <;> decide

/-! ### Lemmas about pathClean -/

theorem not_mem_of_mem_splitOn (x : Char) (s : GoStr) :
    ∀ l ∈ s.splitOn x, x ∉ l := by
  have main : ∀ (s' : GoStr), ∀ l ∈ s'.splitOnP (· == x), x ∉ l := by
    intro s'
    induction s' with
    | nil =>
      intro l hl
      simp only [List.splitOnP_nil, List.mem_singleton] at hl
      simp [hl]
    | cons c cs ih =>
      intro l hl
      rw [List.splitOnP_cons] at hl
      by_cases hc : c = x
      · rw [if_pos (by simp [hc])] at hl
        rcases List.mem_cons.mp hl with rfl | hl2
        · simp
        · exact ih l hl2
      · rw [if_neg (by simp [hc])] at hl
        cases hsp : cs.splitOnP (· == x) with
        | nil => exact absurd hsp (List.splitOnP_ne_nil _ cs)
        | cons h t =>
          rw [hsp] at hl
          simp only [List.modifyHead] at hl
          rcases List.mem_cons.mp hl with rfl | hl2
          · intro hx
            rcases List.mem_cons.mp hx with rfl | hx2
            · exact hc rfl
            · exact ih h (by rw [hsp]; exact List.mem_cons_self _ _) hx2
          · exact ih l (by rw [hsp]; exact List.mem_cons_of_mem _ hl2)
  intro l hl
  exact main s l (by simpa [List.splitOn] using hl)

/-- A plain, pushable path element: non-empty, not `"."`, slash-free. -/
def PlainSeg (e : GoStr) : Prop := e ≠ [] ∧ e ≠ ['.'] ∧ '/' ∉ e

theorem plainSeg_dd : PlainSeg ddSeg := ⟨by decide, by decide, by decide⟩

/-- Invariant of the element stack built by `cleanStack` (most recent element
first): all elements are plain, and the `".."` elements form a suffix of the
stack (so a leading run in path order); a rooted stack has none at all. -/
def StackOK (rooted : Bool) (stack : List GoStr) : Prop :=
  (∀ e ∈ stack, PlainSeg e) ∧
  ∃ names k, stack = names ++ List.replicate k ddSeg ∧
    (∀ e ∈ names, e ≠ ddSeg) ∧ (rooted = true → k = 0)

theorem stackOK_nil (rooted : Bool) : StackOK rooted [] :=
  ⟨fun e he => absurd he (List.not_mem_nil e),
    [], 0, rfl, fun e he => absurd he (List.not_mem_nil e), fun _ => rfl⟩

theorem stackOK_false_of_true (stack : List GoStr) (h : StackOK true stack) :
    StackOK false stack := by
  obtain ⟨hp, names, k, hd, hn, -⟩ := h
  exact ⟨hp, names, k, hd, hn, fun hcontra => absurd hcontra (by decide)⟩

theorem stackOK_push (rooted : Bool) (stack : List GoStr) (e : GoStr)
    (hs : StackOK rooted stack) (he : '/' ∉ e) :
    StackOK rooted (cleanPush rooted stack e) := by
  obtain ⟨hplain, names, k, hdecomp, hnames, hk⟩ := hs
  by_cases h1 : e = [] ∨ e = ['.']
  · unfold cleanPush
    rw [if_pos h1]
    exact ⟨hplain, names, k, hdecomp, hnames, hk⟩
  by_cases h2 : e = ddSeg
  · unfold cleanPush
    rw [if_neg h1, if_pos h2]
    cases rooted with
    | true =>
      have hk0 : k = 0 := hk rfl
      subst hk0
      rw [List.replicate_zero, List.append_nil] at hdecomp
      rw [if_pos rfl]
      refine ⟨fun x hx => hplain x (List.mem_of_mem_tail hx),
        stack.tail, 0, by simp, fun x hx => ?_, fun _ => rfl⟩
      have hxs : x ∈ stack := List.mem_of_mem_tail hx
      rw [hdecomp] at hxs
      exact hnames x hxs
    | false =>
      simp only [Bool.false_eq_true, if_false]
      cases hn : names with
      | nil =>
        subst hn
        rw [List.nil_append] at hdecomp
        subst hdecomp
        cases k with
        | zero =>
          simp only [List.replicate_zero]
          show StackOK false [ddSeg]
          exact ⟨fun x hx => by
              rcases List.mem_singleton.mp hx with rfl
              exact plainSeg_dd,
            [], 1, by simp, fun x hx => absurd hx (List.not_mem_nil x),
            fun hcontra => absurd hcontra (by decide)⟩
        | succ k' =>
          simp only [List.replicate_succ]
          rw [if_pos trivial]
          refine ⟨fun x hx => ?_, [], k' + 2,
            by simp [List.replicate_succ], fun x hx => absurd hx (List.not_mem_nil x),
            fun hcontra => absurd hcontra (by decide)⟩
          have : x = ddSeg := by
            rcases List.mem_cons.mp hx with rfl | hx2
            · rfl
            · rcases List.mem_cons.mp hx2 with rfl | hx3
              · rfl
              · exact List.eq_of_mem_replicate hx3
          rw [this]
          exact plainSeg_dd
      | cons n0 ns =>
        subst hn
        subst hdecomp
        simp only [List.cons_append]
        rw [if_neg (hnames n0 (List.mem_cons_self _ _))]
        exact ⟨fun x hx => hplain x (List.mem_cons_of_mem _ hx),
          ns, k, rfl, fun x hx => hnames x (List.mem_cons_of_mem _ hx), hk⟩
  · unfold cleanPush
    rw [if_neg h1, if_neg h2]
    push_neg at h1
    refine ⟨fun x hx => ?_, e :: names, k, by rw [hdecomp]; rfl,
      fun x hx => ?_, hk⟩
    · rcases List.mem_cons.mp hx with rfl | hx2
      · exact ⟨h1.1, h1.2, he⟩
      · exact hplain x hx2
    · rcases List.mem_cons.mp hx with rfl | hx2
      · exact h2
      · exact hnames x hx2

theorem stackOK_foldl (rooted : Bool) :
    ∀ (elems acc : List GoStr),
      (∀ e ∈ elems, '/' ∉ e) → StackOK rooted acc →
      StackOK rooted (List.foldl (cleanPush rooted) acc elems) := by
  intro elems
  induction elems with
  | nil => intro acc _ hacc; exact hacc
  | cons e rest ih =>
    intro acc hel hacc
    simp only [List.foldl_cons]
    exact ih _ (fun x hx => hel x (List.mem_cons_of_mem _ hx))
      (stackOK_push _ _ _ hacc (hel e (List.mem_cons_self _ _)))

theorem stackOK_cleanStack (rooted : Bool) (elems : List GoStr)
    (helems : ∀ e ∈ elems, '/' ∉ e) :
    StackOK rooted (cleanStack rooted elems) :=
  stackOK_foldl rooted elems [] helems (stackOK_nil rooted)

theorem foldl_cleanPush_plain (rooted : Bool) :
    ∀ (l acc : List GoStr),
      (∀ e ∈ l, e ≠ [] ∧ e ≠ ['.'] ∧ e ≠ ddSeg) →
      List.foldl (cleanPush rooted) acc l = l.reverse ++ acc := by
  intro l
  induction l with
  | nil => intro acc _; simp
  | cons e rest ih =>
    intro acc hl
    obtain ⟨h1, h2, h3⟩ := hl e (List.mem_cons_self _ _)
    have hpush : cleanPush rooted acc e = e :: acc := by
      unfold cleanPush
      rw [if_neg (by tauto), if_neg h3]
    simp only [List.foldl_cons, hpush]
    rw [ih (e :: acc) (fun x hx => hl x (List.mem_cons_of_mem _ hx))]
    simp

theorem foldl_cleanPush_dd :
    ∀ (k m : Nat),
      List.foldl (cleanPush false) (List.replicate m ddSeg)
        (List.replicate k ddSeg) = List.replicate (k + m) ddSeg := by
  intro k
  induction k with
  | zero => intro m; simp
  | succ k' ih =>
    intro m
    have hpush : cleanPush false (List.replicate m ddSeg) ddSeg
        = List.replicate (m + 1) ddSeg := by
      unfold cleanPush
      rw [if_neg (by decide), if_pos rfl]
      simp only [Bool.false_eq_true, if_false]
      cases m with
      | zero => simp
      | succ m' =>
        simp only [List.replicate_succ]
        rw [if_pos trivial]
    rw [List.replicate_succ, List.foldl_cons, hpush, ih (m + 1)]
    congr 1
    omega

theorem cleanStack_reverse_eq (rooted : Bool) (stack : List GoStr)
    (h : StackOK rooted stack) :
    cleanStack rooted stack.reverse = stack := by
  obtain ⟨hplain, names, k, hdecomp, hnames, hk⟩ := h
  subst hdecomp
  have hplain2 : ∀ x ∈ names.reverse, x ≠ [] ∧ x ≠ ['.'] ∧ x ≠ ddSeg := by
    intro x hx
    rw [List.mem_reverse] at hx
    obtain ⟨p1, p2, -⟩ := hplain x (List.mem_append_left _ hx)
    exact ⟨p1, p2, hnames x hx⟩
  have hdd : List.foldl (cleanPush rooted) [] (List.replicate k ddSeg)
      = List.replicate k ddSeg := by
    cases rooted with
    | true => rw [hk rfl]; simp
    | false => simpa using foldl_cleanPush_dd k 0
  unfold cleanStack
  rw [List.reverse_append, List.reverse_replicate, List.foldl_append, hdd,
    foldl_cleanPush_plain rooted names.reverse (List.replicate k ddSeg) hplain2,
    List.reverse_reverse]

theorem intercalate_cons_decomp (a : GoStr) (rest : List GoStr) :
    ∃ t, List.intercalate ['/'] (a :: rest) = a ++ t := by
  cases rest with
  | nil => exact ⟨[], by simp [List.intercalate]⟩
  | cons b r =>
    refine ⟨'/' :: List.intercalate ['/'] (b :: r), ?_⟩
    simp [List.intercalate, List.intersperse_cons_cons]

theorem trimLeadingSlash_of_head_ne (c : Char) (cs : GoStr) (hc : c ≠ '/') :
    trimLeadingSlash (c :: cs) = c :: cs := by
  simp only [trimLeadingSlash]
  rw [if_neg hc]

theorem normalizeFolderPath_of_not_empty (s : GoStr) (h : pathIsEmpty s = false) :
    normalizeFolderPath s = trimLeadingSlash (pathClean s) := by
  unfold normalizeFolderPath
  rw [h]
  simp

/-- The canonical unrooted outputs of the cleaning pass are fixed points of
normalization (and keep their first character, which is not a slash). -/
theorem normalize_fix (stack : List GoStr) (hOK : StackOK false stack)
    (hne : stack ≠ []) :
    trimLeadingSlash (List.intercalate ['/'] stack.reverse)
        = List.intercalate ['/'] stack.reverse ∧
      normalizeFolderPath (List.intercalate ['/'] stack.reverse)
        = List.intercalate ['/'] stack.reverse := by
  cases hrev : stack.reverse with
  | nil => exact absurd (List.reverse_eq_nil_iff.mp hrev) hne
  | cons a r =>
    rw [← hrev]
    have ha : a ∈ stack := by
      rw [← List.mem_reverse, hrev]
      exact List.mem_cons_self _ _
    obtain ⟨ha1, ha2, ha3⟩ := hOK.1 a ha
    cases hae : a with
    | nil => exact absurd hae ha1
    | cons ch a' =>
      subst hae
      have hch : ch ≠ '/' := fun hcc => ha3 (hcc ▸ List.mem_cons_self _ _)
      obtain ⟨t, ht⟩ := intercalate_cons_decomp (ch :: a') r
      have hY : List.intercalate ['/'] stack.reverse = ch :: (a' ++ t) := by
        rw [hrev, ht]
        rfl
      have htrim : trimLeadingSlash (List.intercalate ['/'] stack.reverse)
          = List.intercalate ['/'] stack.reverse := by
        rw [hY]
        exact trimLeadingSlash_of_head_ne ch (a' ++ t) hch
      refine ⟨htrim, ?_⟩
      have hempty : pathIsEmpty (List.intercalate ['/'] stack.reverse) = false := by
        rw [hY]
        unfold pathIsEmpty
        rw [Bool.or_eq_false_iff]
        constructor
        · exact beq_eq_false_iff_ne.mpr (by simp)
        · refine beq_eq_false_iff_ne.mpr ?_
          intro hcontra
          exact hch (List.cons.injEq _ _ _ _ ▸ hcontra).1
      have hhead : ((List.intercalate ['/'] stack.reverse).head? == some '/')
          = false := by
        rw [hY]
        refine beq_eq_false_iff_ne.mpr ?_
        simp only [List.head?_cons]
        intro hcontra
        exact hch (Option.some.injEq _ _ ▸ hcontra)
      have hsplit : (List.intercalate ['/'] stack.reverse).splitOn '/'
          = stack.reverse := by
        refine List.splitOn_intercalate stack.reverse '/' ?_ ?_
        · intro l hl
          rw [List.mem_reverse] at hl
          exact (hOK.1 l hl).2.2
        · rw [hrev]
          exact List.cons_ne_nil _ _
      rw [normalizeFolderPath_of_not_empty _ hempty]
      unfold pathClean
      rw [hhead, hsplit, cleanStack_reverse_eq false stack hOK]
      unfold renderClean
      rw [if_neg (by simp), if_neg (by rw [hrev]; exact List.cons_ne_nil _ _)]
      exact htrim

/-- Idempotence of normalizeFolderPath on every input string. -/
theorem normalizeFolderPath_idem (s : GoStr) :
    normalizeFolderPath (normalizeFolderPath s) = normalizeFolderPath s := by
  by_cases h0 : pathIsEmpty s = true
  · have h1 : normalizeFolderPath s = [] := by
      unfold normalizeFolderPath
      rw [h0]
      simp
    rw [h1]
    decide
  · have h0f : pathIsEmpty s = false := by
      revert h0
      cases pathIsEmpty s <;> simp
    have hsep : ∀ l ∈ s.splitOn '/', '/' ∉ l := not_mem_of_mem_splitOn '/' s
    rw [normalizeFolderPath_of_not_empty s h0f]
    by_cases hroot : (s.head? == some '/') = true
    · have hOK : StackOK true (cleanStack true (s.splitOn '/')) :=
        stackOK_cleanStack true (s.splitOn '/') hsep
      cases hstk : cleanStack true (s.splitOn '/') with
      | nil =>
        have h2 : pathClean s = ['/'] := by
          unfold pathClean
          rw [hroot, hstk]
          decide
        rw [h2]
        decide
      | cons a stack' =>
        have h2 : pathClean s = '/' :: List.intercalate ['/']
            (cleanStack true (s.splitOn '/')).reverse := by
          unfold pathClean renderClean
          rw [hroot, if_pos rfl]
        rw [h2]
        have h3 : trimLeadingSlash ('/' :: List.intercalate ['/']
            (cleanStack true (s.splitOn '/')).reverse)
            = List.intercalate ['/'] (cleanStack true (s.splitOn '/')).reverse := by
          simp only [trimLeadingSlash]
          rw [if_pos trivial]
        rw [h3]
        exact (normalize_fix (cleanStack true (s.splitOn '/'))
          (stackOK_false_of_true _ hOK) (by rw [hstk]; exact List.cons_ne_nil _ _)).2
    · have hrootf : (s.head? == some '/') = false := by
        revert hroot
        cases s.head? == some '/' <;> simp
      have hOK : StackOK false (cleanStack false (s.splitOn '/')) :=
        stackOK_cleanStack false (s.splitOn '/') hsep
      cases hstk : cleanStack false (s.splitOn '/') with
      | nil =>
        have h2 : pathClean s = ['.'] := by
          unfold pathClean
          rw [hrootf, hstk]
          decide
        rw [h2]
        decide
      | cons a stack' =>
        have h2 : pathClean s = List.intercalate ['/']
            (cleanStack false (s.splitOn '/')).reverse := by
          unfold pathClean renderClean
          rw [hrootf]
          rw [if_neg (by simp), if_neg (by
            rw [List.reverse_eq_nil_iff, hstk]
            exact List.cons_ne_nil _ _)]
        rw [h2]
        obtain ⟨htrim, hfix⟩ := normalize_fix (cleanStack false (s.splitOn '/'))
          hOK (by rw [hstk]; exact List.cons_ne_nil _ _)
        rw [htrim]
        exact hfix

/-! ### The guest-customization event waiter -/

/-- The events the waiter's callback inspects: `CustomizationSucceeded`,
`CustomizationFailed` (with its `FullFormattedMessage`), and everything
else, which the callback ignores. -/
inductive VmEvent where
  | customizationSucceeded
  | customizationFailed (fullFormattedMessage : String)
  | otherEvent
deriving DecidableEq

/-- Whether the event is one of the two terminal customization events. -/
def isTerminalEvent : VmEvent → Bool
  | .customizationSucceeded => true
  | .customizationFailed _ => true
  | .otherEvent => false

/-- Outcome of running the listener callback over one or more event pages.
`succClosed` is the state of the one-shot `success` channel; closing an
already-closed Go channel is a runtime panic, modelled by `panicked`. -/
inductive CbOutcome where
  | panicked
  | errored (msg : String) (succClosed : Bool)
  | returned (succClosed : Bool)
deriving DecidableEq

/-- The callback `cb` in `wait`: it iterates over the page of events; a
`CustomizationFailed` event makes it return the event's full formatted
message as an error; a `CustomizationSucceeded` event makes it call
`close(success)` and keep iterating (a second close panics); every other
event is skipped. -/
def runCb : List VmEvent → Bool → CbOutcome
  | [], succClosed => .returned succClosed
  | e :: rest, succClosed =>
    match e with
    | .customizationFailed m => .errored m succClosed
    | .customizationSucceeded =>
        if succClosed then .panicked else runCb rest true
    | .otherEvent => runCb rest succClosed

/-- The event manager delivers pages to the callback one at a time until the
callback returns an error (or the delivered pages run out). -/
def runPages : List (List VmEvent) → Bool → CbOutcome
  | [], succClosed => .returned succClosed
  | page :: rest, succClosed =>
    match runCb page succClosed with
    | .returned c => runPages rest c
    | out => out

/-- What the blocking part of `wait` can return: `ok` (nil error) when the
success channel was closed, the callback's error message from `mgrErr` when
the callback returned one, a transport error from `mgrErr` when the
subscription itself failed, the distinct timeout error when the deadline
fires first, or a propagated panic. -/
inductive WaitResult where
  | ok
  | customizationError (msg : String)
  | subscriptionError (msg : String)
  | timeoutError
  | panicked
deriving DecidableEq

/-- The possible results of the three-way select in `wait`, given the pages
the subscription delivered before the deadline and an optional transport
error: a callback error arrives on `mgrErr`; a closed `success` channel
makes the success case ready (when both are ready the select may pick
either); if neither becomes ready the context deadline fires (or a pending
transport error is surfaced on `mgrErr`). -/
def waitOutcomes (pages : List (List VmEvent)) (transportErr : Option String) :
    List WaitResult :=
  match runPages pages false with
  | .panicked => [.panicked]
  | .errored m c =>
    if c then [.customizationError m, .ok] else [.customizationError m]
  | .returned c =>
    if c then [.ok]
    else
      match transportErr with
      | some m => [.subscriptionError m]
      | none => [.timeoutError]

/-- One exit of `wait`: its result together with whether the deferred
`pcancel` tearing down the event subscription ran — the defer runs on every
exit path of `wait`, panics included. -/
structure WaitExit where
  result : WaitResult
  subscriberCancelled : Bool
deriving DecidableEq

/-- The possible exits of `wait` with their subscription teardown flag. -/
def waitExits (pages : List (List VmEvent)) (transportErr : Option String) :
    List WaitExit :=
  (waitOutcomes pages transportErr).map (fun r => ⟨r, true⟩)

/-! ### Lemmas about the waiter -/

theorem runCb_no_terminal (page : List VmEvent) :
    ∀ succClosed : Bool, (∀ e ∈ page, isTerminalEvent e = false) →
      runCb page succClosed = .returned succClosed := by
  induction page with
  | nil => intro c _; rfl
  | cons e rest ih =>
    intro c hterm
    have he := hterm e (List.mem_cons_self _ _)
    cases e with
    | customizationSucceeded => exact absurd he (by decide)
    | customizationFailed m => simp [isTerminalEvent] at he
    | otherEvent =>
      show runCb rest c = .returned c
      exact ih c (fun x hx => hterm x (List.mem_cons_of_mem _ hx))

theorem runPages_no_terminal (pages : List (List VmEvent)) :
    ∀ succClosed : Bool, (∀ e ∈ pages.flatten, isTerminalEvent e = false) →
      runPages pages succClosed = .returned succClosed := by
  induction pages with
  | nil => intro c _; rfl
  | cons page rest ih =>
    intro c hterm
    have hp : runCb page c = .returned c :=
      runCb_no_terminal page c (fun x hx =>
        hterm x (by rw [List.flatten_cons]; exact List.mem_append_left _ hx))
    show (match runCb page c with
      | .returned c2 => runPages rest c2
      | out => out) = .returned c
    rw [hp]
    exact ih c (fun x hx =>
      hterm x (by rw [List.flatten_cons]; exact List.mem_append_right _ hx))

theorem runCb_failed_first (page : List VmEvent) :
    ∀ succClosed : Bool, ∀ msg : String,
      page.find? isTerminalEvent = some (.customizationFailed msg) →
      runCb page succClosed = .errored msg succClosed := by
  induction page with
  | nil => intro c msg h; simp [List.find?_nil] at h
  | cons e rest ih =>
    intro c msg h
    cases e with
    | customizationSucceeded =>
      simp only [List.find?, isTerminalEvent] at h
      simp at h
    | customizationFailed m =>
      simp only [List.find?, isTerminalEvent, Option.some.injEq,
        VmEvent.customizationFailed.injEq] at h
      rw [h]
      rfl
    | otherEvent =>
      simp only [List.find?, isTerminalEvent] at h
      exact ih c msg h

theorem runPages_failed_first (pages : List (List VmEvent)) :
    ∀ succClosed : Bool, ∀ msg : String,
      pages.flatten.find? isTerminalEvent = some (.customizationFailed msg) →
      runPages pages succClosed = .errored msg succClosed := by
  induction pages with
  | nil => intro c msg h; simp [List.find?_nil] at h
  | cons page rest ih =>
    intro c msg h
    rw [List.flatten_cons, List.find?_append] at h
    cases hfind : page.find? isTerminalEvent with
    | none =>
      have hrest : rest.flatten.find? isTerminalEvent
          = some (.customizationFailed msg) := by
        rw [hfind] at h
        simpa using h
      have hnone : ∀ e ∈ page, isTerminalEvent e = false := by
        intro x hx
        have := List.find?_eq_none.mp hfind x hx
        revert this
        cases isTerminalEvent x <;> simp
      have hp : runCb page c = .returned c := runCb_no_terminal page c hnone
      show (match runCb page c with
        | .returned c2 => runPages rest c2
        | out => out) = .errored msg c
      rw [hp]
      exact ih c msg hrest
    | some ev =>
      have hev : ev = .customizationFailed msg := by
        rw [hfind] at h
        simpa using h
      subst hev
      have hp : runCb page c = .errored msg c :=
        runCb_failed_first page c msg hfind
      show (match runCb page c with
        | .returned c2 => runPages rest c2
        | out => out) = .errored msg c
      rw [hp]

/-! ### Claims -/

/-- C1 (amended): for every folder-type particle P and absolute path
`D + "/" + P + "/" + R` with D containing no occurrence of the delimiter
`"/" + P` and R a non-empty string not containing the delimiter,
SplitDatacenter returns D with no error, SplitRelative returns `"/" + R`
(the relative part keeps the slash that precedes it, it is not the bare R)
with no error, and PathFromDatacenter with datacenter path D and relative R
rebuilds the original path. -/
theorem C1_split_roundtrip_amended (p : rootPathParticle)
    (hp : p ∈ folderParticles) (D R : GoStr)
    (hD : ¬ Delimiter p <:+: D) (_hR1 : R ≠ [])
    (_hR2 : ¬ Delimiter p <:+: R) :
    SplitDatacenter p (D ++ Delimiter p ++ '/' :: R) = (D, none) ∧
      SplitRelative p (D ++ Delimiter p ++ '/' :: R) = ('/' :: R, none) ∧
      PathFromDatacenter p D R = D ++ Delimiter p ++ '/' :: R := by
  have hsf : splitFirst (Delimiter p) (D ++ Delimiter p ++ '/' :: R)
      = some (D, '/' :: R) :=
    splitFirst_boundary p D ('/' :: R) (folderParticle_no_slash p hp) hD
  exact ⟨SplitDatacenter_of_found p _ D ('/' :: R) hsf,
    SplitRelative_of_found p _ D ('/' :: R) hsf, rfl⟩

/-- Witness for C1: the amended claim applied to particle host, D = "/dc1",
R = "a". -/
theorem C1_witness :
    SplitDatacenter rootPathParticleHost
        ("/dc1".toList ++ Delimiter rootPathParticleHost ++ '/' :: "a".toList)
      = ("/dc1".toList, none) ∧
      SplitRelative rootPathParticleHost
        ("/dc1".toList ++ Delimiter rootPathParticleHost ++ '/' :: "a".toList)
      = ('/' :: "a".toList, none) ∧
      PathFromDatacenter rootPathParticleHost "/dc1".toList "a".toList
        = "/dc1".toList ++ Delimiter rootPathParticleHost ++ '/' :: "a".toList :=
  C1_split_roundtrip_amended rootPathParticleHost (by decide)
    "/dc1".toList "a".toList (by decide) (by decide) (by decide)

/-- Counterexample to C1 as stated: with particle host, D = "/dc1" and
R = "a" (which satisfy the claim's side conditions), SplitRelative on the
path "/dc1/host/a" returns "/a", which is not R = "a". -/
theorem C1_counterexample :
    (¬ Delimiter rootPathParticleHost <:+: "/dc1".toList) ∧
      "/dc1/host/a".toList
        = "/dc1".toList ++ Delimiter rootPathParticleHost ++ '/' :: "a".toList ∧
      SplitRelative rootPathParticleHost "/dc1/host/a".toList
        = ("/a".toList, none) ∧
      ("/a".toList : GoStr) ≠ "a".toList := by decide

/-- C2 (amended): SplitDatacenter and SplitRelative fail with the
malformed-path error exactly when the particle's delimiter does not occur in
the input at all; when it occurs (once or several times) they succeed,
splitting at the first occurrence. -/
theorem C2_split_error_iff (p : rootPathParticle) (s : GoStr) :
    ((SplitDatacenter p s).2.isSome ↔ ¬ Delimiter p <:+: s) ∧
      ((SplitRelative p s).2.isSome ↔ ¬ Delimiter p <:+: s) := by
  cases hsf : splitFirst (Delimiter p) s with
  | none =>
    have hni : ¬ Delimiter p <:+: s := (splitFirst_eq_none_iff _ _).mp hsf
    rw [SplitDatacenter_of_none p s hsf, SplitRelative_of_none p s hsf]
    simp [hni]
  | some q =>
    obtain ⟨a, b⟩ := q
    have hi : Delimiter p <:+: s := by
      by_contra hni
      rw [(splitFirst_eq_none_iff _ _).mpr hni] at hsf
      cases hsf
    rw [SplitDatacenter_of_found p s a b hsf, SplitRelative_of_found p s a b hsf]
    simp [hi]

/-- Counterexample to C2 as stated: on "/dc/vm/a/vm/b" the vm delimiter
"/vm" occurs twice, yet both splits succeed (splitting at the first
occurrence) instead of failing. -/
theorem C2_counterexample :
    "/dc/vm/a/vm/b".toList
        = "/dc".toList ++ Delimiter rootPathParticleVM ++ "/a".toList
            ++ Delimiter rootPathParticleVM ++ "/b".toList ∧
      SplitDatacenter rootPathParticleVM "/dc/vm/a/vm/b".toList
        = ("/dc".toList, none) ∧
      SplitRelative rootPathParticleVM "/dc/vm/a/vm/b".toList
        = ("/a/vm/b".toList, none) := by decide

/-- C3: the listener callback does not guard the one-shot success channel:
an event page holding two CustomizationSucceeded events makes the callback
close the already-closed channel, a runtime panic, instead of signalling
completion at most once. -/
theorem C3_double_success_panics :
    runCb [VmEvent.customizationSucceeded, VmEvent.customizationSucceeded]
        false = CbOutcome.panicked ∧
      waitOutcomes [[VmEvent.customizationSucceeded,
        VmEvent.customizationSucceeded]] none = [WaitResult.panicked] := by
  decide

/-- C4: when the first terminal customization event delivered to the waiter
is a CustomizationFailed event, the only possible result of the wait is the
error carrying that event's full formatted message verbatim; in particular
the waiter cannot also report success. -/
theorem C4_failure_returns_message (pages : List (List VmEvent)) (msg : String)
    (h : pages.flatten.find? isTerminalEvent
      = some (VmEvent.customizationFailed msg)) :
    waitOutcomes pages none = [WaitResult.customizationError msg] ∧
      WaitResult.ok ∉ waitOutcomes pages none := by
  have hrp : runPages pages false = .errored msg false :=
    runPages_failed_first pages false msg h
  constructor
  · unfold waitOutcomes
    rw [hrp]
    simp
  · unfold waitOutcomes
    rw [hrp]
    simp

/-- Witness for C4 at a concrete failing event stream. -/
theorem C4_witness :
    waitOutcomes [[VmEvent.otherEvent, VmEvent.customizationFailed "fail"]]
        none = [WaitResult.customizationError "fail"] ∧
      WaitResult.ok ∉ waitOutcomes
        [[VmEvent.otherEvent, VmEvent.customizationFailed "fail"]] none :=
  C4_failure_returns_message _ "fail" (by decide)

/-- C5: when no terminal customization event is delivered before the
deadline, the wait exits with the distinct timeout error — different from
the domain-failure error, the subscription error and success — and the
deferred cancel tears the subscription down on that exit path. -/
theorem C5_timeout (pages : List (List VmEvent))
    (h : ∀ e ∈ pages.flatten, isTerminalEvent e = false) :
    waitExits pages none = [⟨WaitResult.timeoutError, true⟩] ∧
      (∀ m, WaitResult.timeoutError ≠ WaitResult.customizationError m) ∧
      (∀ m, WaitResult.timeoutError ≠ WaitResult.subscriptionError m) ∧
      WaitResult.timeoutError ≠ WaitResult.ok := by
  have hrp : runPages pages false = .returned false :=
    runPages_no_terminal pages false h
  refine ⟨?_, fun m => by simp, fun m => by simp, by simp⟩
  unfold waitExits waitOutcomes
  rw [hrp]
  rfl

/-- Witness for C5 at a concrete stream with no terminal event. -/
theorem C5_witness :
    waitExits [[VmEvent.otherEvent]] none
        = [⟨WaitResult.timeoutError, true⟩] ∧
      (∀ m, WaitResult.timeoutError ≠ WaitResult.customizationError m) ∧
      (∀ m, WaitResult.timeoutError ≠ WaitResult.subscriptionError m) ∧
      WaitResult.timeoutError ≠ WaitResult.ok :=
  C5_timeout [[VmEvent.otherEvent]] (by decide)

/-- C6: normalizeFolderPath is idempotent on every string, maps both the
empty string and "/" to the empty string, and normalizes "//a/./b/" to
"a/b". -/
theorem C6_normalize_properties :
    (∀ x : GoStr, normalizeFolderPath (normalizeFolderPath x)
        = normalizeFolderPath x) ∧
      normalizeFolderPath "".toList = "".toList ∧
      normalizeFolderPath "/".toList = "".toList ∧
      normalizeFolderPath "//a/./b/".toList = "a/b".toList :=
  ⟨normalizeFolderPath_idem, by decide, by decide, by decide⟩

/-- C7: PathFromNewRoot on "/dc1/host/cluster1/esxi1" with particle host,
new particle datastore and relative "foo/bar" yields
"/dc1/datastore/foo/bar" with no error. -/
theorem C7_pathFromNewRoot_concrete :
    PathFromNewRoot rootPathParticleHost "/dc1/host/cluster1/esxi1".toList
        rootPathParticleDatastore "foo/bar".toList
      = ("/dc1/datastore/foo/bar".toList, none) := by decide

/-- C8: NewRootFromPath followed by SplitDatacenter on the new particle
recovers the original datacenter prefix unchanged. -/
theorem C8_newroot_split_roundtrip (p q : rootPathParticle)
    (hp : p ∈ folderParticles) (hq : q ∈ folderParticles) (D R : GoStr)
    (hDp : ¬ Delimiter p <:+: D) (hDq : ¬ Delimiter q <:+: D) (_hR : R ≠ []) :
    NewRootFromPath p (D ++ Delimiter p ++ '/' :: R) q
        = (D ++ Delimiter q, none) ∧
      SplitDatacenter q (D ++ Delimiter q) = (D, none) := by
  have hsd : SplitDatacenter p (D ++ Delimiter p ++ '/' :: R) = (D, none) :=
    SplitDatacenter_of_found p _ D ('/' :: R)
      (splitFirst_boundary p D ('/' :: R) (folderParticle_no_slash p hp) hDp)
  constructor
  · simp only [NewRootFromPath, hsd]
    rfl
  · have hq2 : splitFirst (Delimiter q) (D ++ Delimiter q ++ [])
        = some (D, []) :=
      splitFirst_boundary q D [] (folderParticle_no_slash q hq) hDq
    rw [List.append_nil] at hq2
    exact SplitDatacenter_of_found q _ D [] hq2

/-- Witness for C8 at particle host, new particle datastore, D = "/dc1",
R = "a". -/
theorem C8_witness :
    NewRootFromPath rootPathParticleHost
        ("/dc1".toList ++ Delimiter rootPathParticleHost ++ '/' :: "a".toList)
        rootPathParticleDatastore
      = ("/dc1".toList ++ Delimiter rootPathParticleDatastore, none) ∧
      SplitDatacenter rootPathParticleDatastore
        ("/dc1".toList ++ Delimiter rootPathParticleDatastore)
      = ("/dc1".toList, none) :=
  C8_newroot_split_roundtrip rootPathParticleHost rootPathParticleDatastore
    (by decide) (by decide) "/dc1".toList "a".toList
    (by decide) (by decide) (by decide)

/-- C9: delimiter matching is substring-based, not segment-aligned: on
"/dc1/networks/a" with particle network the delimiter "/network" matches
inside the segment "networks", so SplitDatacenter succeeds with "/dc1" and
SplitRelative returns the mid-segment remainder "s/a" instead of failing. -/
theorem C9_substring_based_split :
    SplitDatacenter rootPathParticleNetwork "/dc1/networks/a".toList
        = ("/dc1".toList, none) ∧
      SplitRelative rootPathParticleNetwork "/dc1/networks/a".toList
        = ("s/a".toList, none) ∧
      "/dc1/networks/a".toList
        = "/dc1".toList ++ Delimiter rootPathParticleNetwork ++ "s/a".toList := by
  decide

/-- C10: whenever one of the fallible path operations returns an error, the
string it returns alongside the error is the unmodified input inventory
path. -/
theorem C10_error_returns_input (p newP : rootPathParticle) (s rel : GoStr) :
    ((SplitDatacenter p s).2.isSome → (SplitDatacenter p s).1 = s) ∧
      ((SplitRelative p s).2.isSome → (SplitRelative p s).1 = s) ∧
      ((SplitRelativeFolder p s).2.isSome → (SplitRelativeFolder p s).1 = s) ∧
      ((NewRootFromPath p s newP).2.isSome → (NewRootFromPath p s newP).1 = s) ∧
      ((PathFromNewRoot p s newP rel).2.isSome
        → (PathFromNewRoot p s newP rel).1 = s) := by
  cases hsf : splitFirst (Delimiter p) s with
  | some q =>
    obtain ⟨a, b⟩ := q
    have h1 := SplitDatacenter_of_found p s a b hsf
    have h2 := SplitRelative_of_found p s a b hsf
    refine ⟨?_, ?_, ?_, ?_, ?_⟩ <;>
      simp [SplitRelativeFolder, NewRootFromPath, PathFromNewRoot, h1, h2]
  | none =>
    have h1 := SplitDatacenter_of_none p s hsf
    have h2 := SplitRelative_of_none p s hsf
    refine ⟨?_, ?_, ?_, ?_, ?_⟩ <;>
      simp [SplitRelativeFolder, NewRootFromPath, PathFromNewRoot, h1, h2]

/-- Witness for C10 at the input "x", on which all five operations fail. -/
theorem C10_witness :
    (SplitDatacenter rootPathParticleVM "x".toList).1 = "x".toList ∧
      (SplitRelative rootPathParticleVM "x".toList).1 = "x".toList ∧
      (SplitRelativeFolder rootPathParticleVM "x".toList).1 = "x".toList ∧
      (NewRootFromPath rootPathParticleVM "x".toList rootPathParticleHost).1
        = "x".toList ∧
      (PathFromNewRoot rootPathParticleVM "x".toList rootPathParticleHost
        "r".toList).1 = "x".toList := by
  have h := C10_error_returns_input rootPathParticleVM rootPathParticleHost
    "x".toList "r".toList
  exact ⟨h.1 (by decide), h.2.1 (by decide), h.2.2.1 (by decide),
    h.2.2.2.1 (by decide), h.2.2.2.2 (by decide)⟩
